import Mathlib

set_option linter.unusedVariables false

/-!
Shallow embedding of the asynchronous client core in src/aio.rs of redis-rs.

The embedding translates the code of that file into executable Lean
definitions:

* RESP values (`Value`) and errors (`RedisError`) mirror the variants the
  core manipulates.
* The handshake (`authenticate`, `connect`) is embedded with the server's
  replies abstracted as an oracle `reply : HandshakeCmd → Except RedisError
  Value`, and the transport-establishment outcome of `connect_simple` as a
  parameter `transport`.  The list of issued handshake commands is returned
  alongside the result so that "AUTH is skipped" is a provable statement.
* `Connection::req_packed_commands` is embedded with the incremental decoder
  abstracted as `resp : Nat → Except RedisError Value`, giving the outcome of
  the k-th serial `read_response` call, and `write_all`'s outcome as a
  parameter.
* The `PipelineSink` driver is embedded at its instantiated types
  (`Pipeline<Vec<u8>, Value, RedisError>`): `SinkState` holds the `in_flight`
  deque and the one-slot stashed `error`; `send_result`, `start_send` and
  `poll_ready` are direct translations.  The oneshot sender of an `InFlight`
  record is modelled by a slot identifier `output : Nat` plus a flag
  `alive : Bool` recording whether the receiver still exists; the code
  discards the result of `output.send(..)` (`.ok()`), and correspondingly no
  definition below inspects `alive`.  A "delivery" `(output, alive, result)`
  records one `output.send(result)` call made by the driver.
* `processFrames` folds `send_result` over a finite prefix of the inbound
  stream, exactly as `poll_read`'s loop does; `pushAll` folds `start_send`
  over a list of accepted submissions.
* `Pipeline::send` / `send_recv_multiple` and the `MultiplexedConnection`
  error mapping are embedded with the mpsc/oneshot outcomes as parameters:
  `channelAccepted` is whether `self.0.send(..)` succeeded, `recvOutcome` is
  what the oneshot receiver observed (`none` = sender dropped).
* `ConnectionManager::reconnect`'s arc-swap compare-and-swap is embedded with
  `Arc` pointers modelled as identifiers (`Nat`); pointer equality becomes
  equality of identifiers, which is faithful because every candidate future
  is freshly allocated.
-/

/-- RESP value decoded by the codec (crate type `Value`), opaque to the core. -/
inductive Value where
  | Nil
  | Int (n : Int)
  | Data (bytes : List Nat)
  | Bulk (items : List Value)
  | Status (s : String)
  | Okay

/-- Error kinds of the crate's `ErrorKind` that the async core constructs or
inspects. -/
inductive ErrorKind where
  | ResponseError
  | AuthenticationFailed
  | InvalidClientConfig
  | IoError
deriving DecidableEq

/-- Kind of an `io::Error` (only the distinction the core uses). -/
inductive IoErrorKind where
  | brokenPipe
  | other
deriving DecidableEq

/-- The crate's `RedisError`: either an application-level error built from an
`(ErrorKind, description)` pair (the `fail!` macro) or a wrapped I/O error. -/
inductive RedisError where
  | app (kind : ErrorKind) (desc : String)
  | io (kind : IoErrorKind)

/-- The fields of `ConnectionInfo` the handshake reads. -/
structure ConnectionInfo where
  passwd : Option String
  db : Int

/-- A command issued during the handshake: `AUTH <password>` or `SELECT <db>`. -/
inductive HandshakeCmd where
  | auth (passwd : String)
  | select (db : Int)

/-- Second half of `authenticate` (aio.rs lines 135-143): if `db != 0`, issue
`SELECT <db>` and require the reply `Okay`; `issued` accumulates the commands
sent so far. -/
def selectStep (info : ConnectionInfo) (reply : HandshakeCmd → Except RedisError Value)
    (issued : List HandshakeCmd) : Except RedisError Unit × List HandshakeCmd :=
  if info.db ≠ 0 then
    match reply (.select info.db) with
    | .ok .Okay => (.ok (), issued ++ [.select info.db])
    | _ => (.error (.app .ResponseError "Redis server refused to switch database"),
            issued ++ [.select info.db])
  else (.ok (), issued)

/-- Embedding of `authenticate` (aio.rs lines 119-146).  The server's reply to
each handshake command is given by the oracle `reply`; the second component is
the list of handshake commands actually issued. -/
def authenticate (info : ConnectionInfo) (reply : HandshakeCmd → Except RedisError Value) :
    Except RedisError Unit × List HandshakeCmd :=
  match info.passwd with
  | some p =>
    match reply (.auth p) with
    | .ok .Okay => selectStep info reply [.auth p]
    | _ => (.error (.app .AuthenticationFailed "Password authentication failed"), [.auth p])
  | none => selectStep info reply []

/-- The state of a `Connection` that `connect` returns (transport, scratch
buffer and decoder state are owned by the runtime; the core-visible datum is
the cached `db`). -/
structure Connection where
  db : Int

/-- Embedding of `connect` (aio.rs lines 104-117): establish the transport
(`connect_simple`, outcome given by `transport`), then run `authenticate`;
return the connection only if both succeed. -/
def connect (info : ConnectionInfo) (transport : Except RedisError Unit)
    (reply : HandshakeCmd → Except RedisError Value) : Except RedisError Connection :=
  match transport with
  | .error e => .error e
  | .ok _ =>
    match (authenticate info reply).1 with
    | .ok _ => .ok ⟨info.db⟩
    | .error e => .error e

/-- Serial reads from the incremental decoder: `readRange resp start n` performs
`n` successive `read_response` calls, the k-th of which observes `resp (start+k)`,
short-circuiting on the first error (the `?` in the loops of
`req_packed_commands`, aio.rs lines 230-237). -/
def readRange (resp : Nat → Except RedisError Value) : Nat → Nat → Except RedisError (List Value)
  | _, 0 => .ok []
  | start, n + 1 =>
    match resp start with
    | .error e => .error e
    | .ok v =>
      match readRange resp (start + 1) n with
      | .error e => .error e
      | .ok vs => .ok (v :: vs)

/-- The list of decoded frames at positions `start, start+1, …, start+n-1`. -/
def okList (vs : Nat → Value) : Nat → Nat → List Value
  | _, 0 => []
  | start, n + 1 => vs start :: okList vs (start + 1) n

namespace Connection

/-- Embedding of `Connection::req_packed_commands` (aio.rs lines 219-242):
after writing the packed pipeline (outcome `writeResult`), read `offset`
frames and discard them, then read `count` frames and return them. -/
def req_packed_commands (writeResult : Except RedisError Unit)
    (resp : Nat → Except RedisError Value) (offset count : Nat) :
    Except RedisError (List Value) :=
  match writeResult with
  | .error e => .error e
  | .ok _ =>
    match readRange resp 0 offset with
    | .error e => .error e
    | .ok _ => readRange resp offset count

end Connection

/-- An `InFlight` record of the driver (aio.rs lines 252-256).  The oneshot
sender `output: PipelineOutput` is modelled by a slot identifier plus the flag
`alive` saying whether the paired receiver still exists; the driver never
reads `alive` (it discards the result of `output.send(..)`). -/
structure InFlight where
  output : Nat
  alive : Bool
  response_count : Nat
  buffer : List Value

/-- A `PipelineMessage` (aio.rs lines 259-263) as accepted from the submission
channel, with the oneshot sender modelled as for `InFlight`. -/
structure PipelineMessage where
  input : List Nat
  output : Nat
  alive : Bool
  response_count : Nat

/-- The state of a `PipelineSink` (aio.rs lines 277-284) minus the underlying
`sink_stream`, whose behaviour is passed to each operation as a parameter:
the FIFO `in_flight` deque and the one-slot stashed `error`. -/
structure SinkState where
  in_flight : List InFlight
  error : Option RedisError

/-- A delivery `(output, alive, result)` records one `output.send(result)`
call made by the driver; `alive` is whether the receiver was still alive
(the code ignores it via `.ok()`). -/
abbrev Delivery := Nat × Bool × Except RedisError (List Value)

/-- Embedding of `PipelineSink::send_result` (aio.rs lines 315-341): if the
deque is empty, return (drop the item); on `Ok(item)` push it onto the head's
buffer and complete the head only when `response_count > buffer.len()` no
longer holds; on `Err(err)` pop the head and respond immediately. -/
def send_result (st : SinkState) (result : Except RedisError Value) :
    SinkState × Option Delivery :=
  match st.in_flight with
  | [] => (st, none)
  | entry :: rest =>
    match result with
    | .ok item =>
      if entry.response_count > (entry.buffer ++ [item]).length then
        ({ st with in_flight := { entry with buffer := entry.buffer ++ [item] } :: rest }, none)
      else
        ({ st with in_flight := rest },
         some (entry.output, entry.alive, .ok (entry.buffer ++ [item])))
    | .error e => ({ st with in_flight := rest }, some (entry.output, entry.alive, .error e))

/-- Embedding of `PipelineSink::poll_ready` (aio.rs lines 351-362): given the
underlying sink's readiness outcome, stash a readiness error and report ready
(`true`) in both cases. -/
def poll_ready (sinkReady : Except RedisError Unit) (st : SinkState) : SinkState × Bool :=
  match sinkReady with
  | .ok _ => (st, true)
  | .error err => ({ st with error := some err }, true)

/-- Embedding of `PipelineSink::start_send` (aio.rs lines 364-391): `sinkOutcome`
is the result of `sink_stream.start_send(input)` (`none` = accepted).  Returns
the new state, whether the send succeeded, and the delivery made to the
submission's own slot on failure. -/
def start_send (sinkOutcome : Option RedisError) (st : SinkState) (msg : PipelineMessage) :
    SinkState × Bool × Option Delivery :=
  match st.error with
  | some err => ({ st with error := none }, false, some (msg.output, msg.alive, .error err))
  | none =>
    match sinkOutcome with
    | none =>
      ({ st with in_flight :=
          st.in_flight ++ [⟨msg.output, msg.alive, msg.response_count, []⟩] },
       true, none)
    | some err => (st, false, some (msg.output, msg.alive, .error err))

/-- The loop of `PipelineSink::poll_read` (aio.rs lines 302-313) over a finite
prefix of the inbound stream: fold `send_result` over the items, collecting
the deliveries in order. -/
def processFrames : SinkState → List (Except RedisError Value) → SinkState × List Delivery
  | st, [] => (st, [])
  | st, r :: rs =>
    let p := send_result st r
    let q := processFrames p.1 rs
    (q.1, p.2.toList ++ q.2)

/-- Fold `start_send` (with the underlying sink accepting every item) over a
list of submissions, as the `forward` combinator does for each message drained
from the channel. -/
def pushAll : SinkState → List PipelineMessage → SinkState
  | st, [] => st
  | st, m :: ms => pushAll (start_send none st m).1 ms

/-- The submissions with expected counts `counts`, the k-th one owning slot
`idx + k` whose receiver-liveness is `alive (idx + k)`. -/
def mkMsgs (alive : Nat → Bool) : Nat → List Nat → List PipelineMessage
  | _, [] => []
  | idx, c :: cs => ⟨[], idx, alive idx, c⟩ :: mkMsgs alive (idx + 1) cs

/-- The `InFlight` records that `start_send` creates for `mkMsgs`. -/
def mkRecords (alive : Nat → Bool) : Nat → List Nat → List InFlight
  | _, [] => []
  | idx, c :: cs => ⟨idx, alive idx, c, []⟩ :: mkRecords alive (idx + 1) cs

/-- Number of further `Ok` frames after which a record with count `c` and
current buffer length `blen` completes: `c - blen` frames when that is at
least one, and one frame otherwise (the completion check runs only after a
push). -/
def need (c blen : Nat) : Nat := if blen + 1 < c then c - blen else 1

/-- Total frames consumed by records with counts `counts` (fresh buffers). -/
def needSum : List Nat → Nat
  | [] => 0
  | c :: cs => need c 0 + needSum cs

/-- The deliveries the driver makes for fresh records with counts `counts`
(slots `idx, idx+1, …`) when the inbound stream yields the `Ok` frames
`frames`: each record consumes `need c 0` frames head-first. -/
def expectedDeliveries (alive : Nat → Bool) : Nat → List Nat → List Value → List Delivery
  | _, [], _ => []
  | idx, c :: cs, frames =>
    if need c 0 ≤ frames.length then
      (idx, alive idx, .ok (frames.take (need c 0))) ::
        expectedDeliveries alive (idx + 1) cs (frames.drop (need c 0))
    else []

namespace Pipeline

/-- Embedding of `Pipeline::send_recv_multiple` (aio.rs lines 455-482):
`channelAccepted` is whether `self.0.send(..)` succeeded (`map_err(|_| None)`),
`recvOutcome` is what the oneshot receiver observed (`none` = the sender was
dropped, mapped to `Err(None)`). -/
def send_recv_multiple (channelAccepted : Bool)
    (recvOutcome : Option (Except RedisError (List Value))) :
    Except (Option RedisError) (List Value) :=
  if channelAccepted then
    match recvOutcome with
    | some (.ok v) => .ok v
    | some (.error e) => .error (some e)
    | none => .error none
  else .error none

/-- Embedding of `Pipeline::send` (aio.rs lines 448-453): `send_recv_multiple`
with count 1 followed by `item.pop()` (which yields the last element, if any;
`unwrap` panics exactly when the result is `none`). -/
def send (channelAccepted : Bool) (recvOutcome : Option (Except RedisError (List Value))) :
    Except (Option RedisError) (Option Value) :=
  match send_recv_multiple channelAccepted recvOutcome with
  | .ok v => .ok v.getLast?
  | .error e => .error e

end Pipeline

namespace MultiplexedConnection

/-- Error mapping of `MultiplexedConnection::req_packed_command` (aio.rs lines
530-544): `Err(None)` from the pipeline becomes a `RedisError` built from an
`io::ErrorKind::BrokenPipe` I/O error. -/
def req_packed_command (sendResult : Except (Option RedisError) Value) :
    Except RedisError Value :=
  match sendResult with
  | .ok v => .ok v
  | .error err => .error (err.getD (RedisError.io .brokenPipe))

/-- Embedding of `MultiplexedConnection::req_packed_commands` (aio.rs lines
546-567): same error mapping, and `value.drain(..offset)` drops the first
`offset` frames of the `Ok` payload (it panics when `offset` exceeds the
payload's length). -/
def req_packed_commands (sendResult : Except (Option RedisError) (List Value))
    (offset : Nat) : Except RedisError (List Value) :=
  match sendResult with
  | .ok v => .ok (v.drop offset)
  | .error err => .error (err.getD (RedisError.io .brokenPipe))

end MultiplexedConnection

/-- The `connection` slot of a `ConnectionManager` (aio.rs lines 602-611): the
currently installed shared future, with `Arc` pointers modelled as identifiers. -/
structure ManagerState where
  current : Nat

/-- Embedding of `ArcSwap::compare_and_swap` on the manager's slot: swap in
`cand` when the stored pointer equals the observed `guard`, and return the
previous pointer in either case. -/
def compare_and_swap (st : ManagerState) (guard cand : Nat) : ManagerState × Nat :=
  if st.current = guard then (⟨cand⟩, st.current) else (st, st.current)

/-- Embedding of `ConnectionManager::reconnect` (aio.rs lines 644-668): build
a fresh shared future `cand`, compare-and-swap it over the observed `guard`,
and spawn the new future exactly when the previous pointer equals the guard
(`Arc::ptr_eq(&prev, &current)`).  Returns the new state and whether this
caller spawned. -/
def reconnect (st : ManagerState) (guard cand : Nat) : ManagerState × Bool :=
  let p := compare_and_swap st guard cand
  (p.1, p.2 == guard)

/-- Run a sequence of `reconnect` calls that all hold the same observed
`guard`, each with its own freshly built candidate future; collect who
spawned. -/
def runReconnects (st : ManagerState) (guard : Nat) : List Nat → ManagerState × List Bool
  | [] => (st, [])
  | c :: cs =>
    let p := reconnect st guard c
    let q := runReconnects p.1 guard cs
    (q.1, p.2 :: q.2)

/-- A sample application-level error, used to exercise the theorems on
concrete inputs. -/
def sampleErr : RedisError := .app .ResponseError "sample"

/-- A server that replies `Okay` to every handshake command. -/
def replyOkay : HandshakeCmd → Except RedisError Value := fun _ => .ok .Okay

/-! Basic reduction lemmas for the driver state machine. -/

theorem send_result_nilq (err : Option RedisError) (r : Except RedisError Value) :
    send_result ⟨[], err⟩ r = (⟨[], err⟩, none) := rfl

theorem send_result_errq (entry : InFlight) (rest : List InFlight)
    (err : Option RedisError) (e : RedisError) :
    send_result ⟨entry :: rest, err⟩ (.error e) =
      (⟨rest, err⟩, some (entry.output, entry.alive, .error e)) := rfl

theorem send_result_ok_keep (o : Nat) (a : Bool) (c : Nat) (b : List Value)
    (rest : List InFlight) (err : Option RedisError) (f : Value)
    (h : b.length + 1 < c) :
    send_result ⟨⟨o, a, c, b⟩ :: rest, err⟩ (.ok f) =
      (⟨⟨o, a, c, b ++ [f]⟩ :: rest, err⟩, none) := by
  simp [send_result, h]

theorem send_result_ok_pop (o : Nat) (a : Bool) (c : Nat) (b : List Value)
    (rest : List InFlight) (err : Option RedisError) (f : Value)
    (h : ¬ b.length + 1 < c) :
    send_result ⟨⟨o, a, c, b⟩ :: rest, err⟩ (.ok f) =
      (⟨rest, err⟩, some (o, a, .ok (b ++ [f]))) := by
  simp [send_result, h]

theorem processFrames_nilq (st : SinkState) : processFrames st [] = (st, []) := rfl

theorem processFrames_cons (st : SinkState) (r : Except RedisError Value)
    (rs : List (Except RedisError Value)) :
    processFrames st (r :: rs) =
      ((processFrames (send_result st r).1 rs).1,
       (send_result st r).2.toList ++ (processFrames (send_result st r).1 rs).2) := rfl

theorem processFrames_empty (err : Option RedisError) (fs : List (Except RedisError Value)) :
    processFrames ⟨[], err⟩ fs = (⟨[], err⟩, []) := by
  induction fs with
  | nil => rfl
  | cons r rs ih => rw [processFrames_cons, send_result_nilq, ih]; rfl

theorem need_pos (c blen : Nat) : 1 ≤ need c blen := by
  unfold need; split <;> omega

theorem need_step (c blen : Nat) (h : blen + 1 < c) : need c blen = need c (blen + 1) + 1 := by
  unfold need
  by_cases h2 : blen + 1 + 1 < c
  · rw [if_pos h, if_pos h2]; omega
  · rw [if_pos h, if_neg h2]; omega

theorem need_eq_one (c blen : Nat) (h : ¬ blen + 1 < c) : need c blen = 1 := by
  unfold need; rw [if_neg h]

theorem need_of_pos (c : Nat) (h : 1 ≤ c) : need c 0 = c := by
  unfold need; split <;> omega

theorem processFrames_head_incomplete (o : Nat) (a : Bool) (c : Nat) :
    ∀ (frames : List Value) (b : List Value) (rest : List InFlight) (err : Option RedisError),
    frames.length < need c b.length →
    processFrames ⟨⟨o, a, c, b⟩ :: rest, err⟩ (frames.map .ok) =
      (⟨⟨o, a, c, b ++ frames⟩ :: rest, err⟩, []) := by
  intro frames
  induction frames with
  | nil => intro b rest err h; simp [processFrames_nilq]
  | cons f fs ih =>
    intro b rest err h
    have hc : b.length + 1 < c := by
      by_contra hcc
      have := need_eq_one c b.length hcc
      simp [this] at h
    rw [List.map_cons, processFrames_cons, send_result_ok_keep o a c b rest err f hc]
    have hlen : fs.length < need c (b ++ [f]).length := by
      have hstep := need_step c b.length hc
      have hbl : (b ++ [f]).length = b.length + 1 := by simp
      rw [hbl]
      simp only [List.length_cons] at h
      omega
    rw [ih (b ++ [f]) rest err hlen]
    simp

theorem processFrames_head_complete (o : Nat) (a : Bool) (c : Nat) :
    ∀ (frames : List Value) (b : List Value) (rest : List InFlight) (err : Option RedisError),
    need c b.length ≤ frames.length →
    processFrames ⟨⟨o, a, c, b⟩ :: rest, err⟩ (frames.map .ok) =
      ((processFrames ⟨rest, err⟩ ((frames.drop (need c b.length)).map .ok)).1,
       (o, a, .ok (b ++ frames.take (need c b.length))) ::
         (processFrames ⟨rest, err⟩ ((frames.drop (need c b.length)).map .ok)).2) := by
  intro frames
  induction frames with
  | nil =>
    intro b rest err h
    exact absurd h (by have := need_pos c b.length; simp; omega)
  | cons f fs ih =>
    intro b rest err h
    by_cases hc : b.length + 1 < c
    · rw [List.map_cons, processFrames_cons, send_result_ok_keep o a c b rest err f hc]
      have hstep := need_step c b.length hc
      have hfl : (b ++ [f]).length = b.length + 1 := by simp
      have hle : need c (b ++ [f]).length ≤ fs.length := by
        rw [hfl]; simp only [List.length_cons] at h; omega
      rw [ih (b ++ [f]) rest err hle]
      rw [hfl] at *
      rw [hstep]
      simp [List.take_succ_cons, List.drop_succ_cons]
    · have h1 := need_eq_one c b.length hc
      rw [List.map_cons, processFrames_cons, send_result_ok_pop o a c b rest err f hc]
      rw [h1]
      simp [List.take_succ_cons, List.drop_succ_cons]

theorem processFrames_records (alive : Nat → Bool) :
    ∀ (counts : List Nat) (idx : Nat) (frames : List Value) (err : Option RedisError),
    (processFrames ⟨mkRecords alive idx counts, err⟩ (frames.map .ok)).2 =
      expectedDeliveries alive idx counts frames := by
  intro counts
  induction counts with
  | nil =>
    intro idx frames err
    simp [mkRecords, processFrames_empty, expectedDeliveries]
  | cons c cs ih =>
    intro idx frames err
    rw [mkRecords]
    by_cases h : need c 0 ≤ frames.length
    · have hcomp := processFrames_head_complete idx (alive idx) c frames []
        (mkRecords alive (idx + 1) cs) err (by simpa using h)
      simp only [List.length_nil] at hcomp
      rw [hcomp]
      rw [expectedDeliveries, if_pos h]
      show (idx, alive idx, Except.ok ([] ++ frames.take (need c 0))) ::
          (processFrames ⟨mkRecords alive (idx + 1) cs, err⟩
            ((frames.drop (need c 0)).map .ok)).2 = _
      rw [ih (idx + 1) (frames.drop (need c 0)) err]
      simp
    · have hinc := processFrames_head_incomplete idx (alive idx) c frames []
        (mkRecords alive (idx + 1) cs) err (by simpa using not_le.mp h)
      rw [hinc]
      rw [expectedDeliveries, if_neg h]

theorem expectedDeliveries_get (alive : Nat → Bool) :
    ∀ (k : Nat) (counts : List Nat) (idx : Nat) (frames : List Value),
    k < counts.length →
    needSum (counts.take (k + 1)) ≤ frames.length →
    (expectedDeliveries alive idx counts frames)[k]? =
      some (idx + k, alive (idx + k),
        .ok ((frames.drop (needSum (counts.take k))).take (need (counts.getD k 0) 0))) := by
  intro k
  induction k with
  | zero =>
    intro counts idx frames hk hlen
    match counts with
    | c :: cs =>
      have h1 : need c 0 ≤ frames.length := by
        simp only [List.take_succ_cons, List.take_zero, needSum] at hlen
        omega
      rw [expectedDeliveries, if_pos h1]
      simp [needSum]
  | succ k ih =>
    intro counts idx frames hk hlen
    match counts with
    | c :: cs =>
      have hts : needSum ((c :: cs).take (k + 1 + 1)) = need c 0 + needSum (cs.take (k + 1)) := by
        simp [List.take_succ_cons, needSum]
      have h1 : need c 0 ≤ frames.length := by omega
      rw [expectedDeliveries, if_pos h1]
      rw [List.getElem?_cons_succ]
      have hk' : k < cs.length := by simpa using hk
      have hlen' : needSum (cs.take (k + 1)) ≤ (frames.drop (need c 0)).length := by
        rw [List.length_drop]; omega
      rw [ih cs (idx + 1) (frames.drop (need c 0)) hk' hlen']
      have hts' : needSum ((c :: cs).take (k + 1)) = need c 0 + needSum (cs.take k) := by
        simp [List.take_succ_cons, needSum]
      have hdd : (frames.drop (need c 0)).drop (needSum (cs.take k)) =
          frames.drop (needSum ((c :: cs).take (k + 1))) := by
        rw [List.drop_drop, hts']
      rw [hdd]
      have hgd : (c :: cs).getD (k + 1) 0 = cs.getD k 0 := by simp [List.getD]
      rw [hgd]
      have hidx : idx + 1 + k = idx + (k + 1) := by omega
      rw [hidx]

theorem pushAll_mkMsgs (alive : Nat → Bool) :
    ∀ (counts : List Nat) (idx : Nat) (fl : List InFlight),
    pushAll ⟨fl, none⟩ (mkMsgs alive idx counts) = ⟨fl ++ mkRecords alive idx counts, none⟩ := by
  intro counts
  induction counts with
  | nil => intro idx fl; simp [mkMsgs, mkRecords, pushAll]
  | cons c cs ih =>
    intro idx fl
    have h2 := ih (idx + 1) (fl ++ [(⟨idx, alive idx, c, []⟩ : InFlight)])
    rw [mkMsgs, pushAll]
    show pushAll ⟨fl ++ [(⟨idx, alive idx, c, []⟩ : InFlight)], none⟩
        (mkMsgs alive (idx + 1) cs) = _
    rw [h2, mkRecords]
    simp

theorem run_fifo (alive : Nat → Bool) (counts : List Nat) (frames : List Value) (k : Nat)
    (hk : k < counts.length) (hlen : needSum (counts.take (k + 1)) ≤ frames.length) :
    ((processFrames (pushAll ⟨[], none⟩ (mkMsgs alive 0 counts)) (frames.map .ok)).2)[k]? =
      some (k, alive k,
        .ok ((frames.drop (needSum (counts.take k))).take (need (counts.getD k 0) 0))) := by
  rw [pushAll_mkMsgs alive counts 0 [], List.nil_append]
  rw [processFrames_records alive counts 0 frames none]
  have h := expectedDeliveries_get alive k counts 0 frames hk hlen
  simpa using h

theorem needSum_eq_sum : ∀ (l : List Nat), (∀ c ∈ l, 1 ≤ c) → needSum l = l.sum := by
  intro l
  induction l with
  | nil => intro h; simp [needSum]
  | cons c cs ih =>
    intro h
    rw [needSum, need_of_pos c (h c (by simp)), ih (fun x hx => h x (by simp [hx])),
      List.sum_cons]

theorem getD_mem_of_lt : ∀ (l : List Nat) (k : Nat), k < l.length → l.getD k 0 ∈ l := by
  intro l
  induction l with
  | nil => intro k hk; simp at hk
  | cons c cs ih =>
    intro k hk
    match k with
    | 0 => simp [List.getD]
    | k + 1 =>
      have := ih k (by simpa using hk)
      simp [List.getD] at this ⊢
      right
      simpa [List.getD] using this

/-! Buffer-length invariant of the in-flight deque: `cnt` gives the expected
count registered for each slot. -/

theorem send_result_len_inv (cnt : Nat → Nat) (st : SinkState)
    (x : Except RedisError Value)
    (hinv : ∀ r ∈ st.in_flight,
      r.buffer.length < r.response_count ∧ cnt r.output = r.response_count) :
    (∀ r ∈ (send_result st x).1.in_flight,
        r.buffer.length < r.response_count ∧ cnt r.output = r.response_count)
    ∧ (∀ o a v, (send_result st x).2 = some (o, a, .ok v) → v.length = cnt o) := by
  obtain ⟨fl, err⟩ := st
  match fl with
  | [] =>
    rw [send_result_nilq]
    exact ⟨hinv, by intro o a v h; simp at h⟩
  | entry :: rest =>
    obtain ⟨o0, a0, c0, b0⟩ := entry
    have hhead := hinv ⟨o0, a0, c0, b0⟩ (by simp)
    simp only at hhead
    have hrest : ∀ r ∈ rest,
        r.buffer.length < r.response_count ∧ cnt r.output = r.response_count :=
      fun r hr => hinv r (by simp [hr])
    match x with
    | .error e =>
      rw [send_result_errq]
      exact ⟨hrest, by intro o a v h; simp at h⟩
    | .ok f =>
      by_cases hc : b0.length + 1 < c0
      · rw [send_result_ok_keep o0 a0 c0 b0 rest err f hc]
        constructor
        · intro r hr
          rcases List.mem_cons.mp hr with h | h
          · subst h; simpa using ⟨hc, hhead.2⟩
          · exact hrest r h
        · intro o a v h; simp at h
      · rw [send_result_ok_pop o0 a0 c0 b0 rest err f hc]
        refine ⟨hrest, ?_⟩
        intro o a v h
        simp only [Option.some.injEq, Prod.mk.injEq] at h
        obtain ⟨ho, _, hv⟩ := h
        have hv' : v = b0 ++ [f] := by
          cases hv.symm
          rfl
        subst hv'
        subst ho
        simp
        omega

theorem processFrames_len_inv (cnt : Nat → Nat) :
    ∀ (fs : List (Except RedisError Value)) (st : SinkState),
    (∀ r ∈ st.in_flight,
      r.buffer.length < r.response_count ∧ cnt r.output = r.response_count) →
    ∀ d ∈ (processFrames st fs).2, ∀ v, d.2.2 = .ok v → v.length = cnt d.1 := by
  intro fs
  induction fs with
  | nil => intro st hinv d hd; rw [processFrames_nilq] at hd; simp at hd
  | cons x xs ih =>
    intro st hinv d hd v hv
    rw [processFrames_cons] at hd
    have h := send_result_len_inv cnt st x hinv
    rcases List.mem_append.mp hd with h1 | h2
    · match ho : (send_result st x).2 with
      | none => rw [ho] at h1; simp at h1
      | some del =>
        rw [ho] at h1
        simp only [Option.toList_some, List.mem_singleton] at h1
        subst h1
        obtain ⟨o, a, res⟩ := d
        simp only at hv
        exact h.2 o a v (by rw [ho, hv])
    · exact ih (send_result st x).1 h.1 d h2 v hv

/-! Slot conservation: the outputs of the initial deque are exactly the
delivered slots followed by the still-unfulfilled slots, in order. -/

theorem outputs_split :
    ∀ (fs : List (Except RedisError Value)) (st : SinkState),
    st.in_flight.map InFlight.output =
      (processFrames st fs).2.map (fun d => d.1) ++
        (processFrames st fs).1.in_flight.map InFlight.output := by
  intro fs
  induction fs with
  | nil => intro st; rw [processFrames_nilq]; simp
  | cons x xs ih =>
    intro st
    rw [processFrames_cons]
    obtain ⟨fl, err⟩ := st
    match fl with
    | [] =>
      rw [send_result_nilq]
      simpa using ih ⟨[], err⟩
    | entry :: rest =>
      obtain ⟨o0, a0, c0, b0⟩ := entry
      match x with
      | .error e =>
        rw [send_result_errq]
        have := ih ⟨rest, err⟩
        simp only [List.map_cons, Option.toList_some, List.map_append] at this ⊢
        simp [this]
      | .ok f =>
        by_cases hc : b0.length + 1 < c0
        · rw [send_result_ok_keep o0 a0 c0 b0 rest err f hc]
          have := ih ⟨⟨o0, a0, c0, b0 ++ [f]⟩ :: rest, err⟩
          simp only [List.map_cons] at this ⊢
          simpa using this
        · rw [send_result_ok_pop o0 a0 c0 b0 rest err f hc]
          have := ih ⟨rest, err⟩
          simp only [List.map_cons, Option.toList_some] at this ⊢
          simp [this]

/-! Reconnect runs that lost the race. -/

theorem runReconnects_stuck :
    ∀ (cands : List Nat) (st : ManagerState) (guard : Nat), st.current ≠ guard →
    runReconnects st guard cands = (st, cands.map fun _ => false) := by
  intro cands
  induction cands with
  | nil => intro st guard h; rfl
  | cons c cs ih =>
    intro st guard h
    have h1 : reconnect st guard c = (st, false) := by
      simp [reconnect, compare_and_swap, h]
    rw [runReconnects]
    show ((runReconnects (reconnect st guard c).1 guard cs).1,
      (reconnect st guard c).2 :: (runReconnects (reconnect st guard c).1 guard cs).2) = _
    rw [h1, ih st guard h]
    simp

/-! Serial reads of `req_packed_commands`. -/

theorem readRange_ok (resp : Nat → Except RedisError Value) (vs : Nat → Value) :
    ∀ (n start : Nat), (∀ i, start ≤ i → i < start + n → resp i = .ok (vs i)) →
    readRange resp start n = .ok (okList vs start n) := by
  intro n
  induction n with
  | zero => intro start h; rfl
  | succ n ih =>
    intro start h
    rw [readRange, h start (Nat.le_refl _) (by omega),
      ih (start + 1) (fun i h1 h2 => h i (by omega) (by omega))]
    rfl

theorem readRange_err (resp : Nat → Except RedisError Value) (vs : Nat → Value)
    (e : RedisError) :
    ∀ (n start j : Nat), start ≤ j → j < start + n →
    resp j = .error e → (∀ i, start ≤ i → i < j → resp i = .ok (vs i)) →
    readRange resp start n = .error e := by
  intro n
  induction n with
  | zero => intro start j h1 h2; omega
  | succ n ih =>
    intro start j h1 h2 he hok
    by_cases hj : j = start
    · subst hj
      rw [readRange, he]
    · have hs : resp start = .ok (vs start) := hok start (Nat.le_refl _) (by omega)
      rw [readRange, hs,
        ih (start + 1) j (by omega) (by omega) he (fun i hi1 hi2 => hok i (by omega) hi2)]

/-! Case lemmas for the handshake. -/

theorem selectStep_skip (info : ConnectionInfo) (reply : HandshakeCmd → Except RedisError Value)
    (issued : List HandshakeCmd) (h : info.db = 0) :
    selectStep info reply issued = (.ok (), issued) := by
  simp [selectStep, h]

theorem selectStep_okay (info : ConnectionInfo) (reply : HandshakeCmd → Except RedisError Value)
    (issued : List HandshakeCmd) (h : info.db ≠ 0)
    (hr : reply (.select info.db) = .ok .Okay) :
    selectStep info reply issued = (.ok (), issued ++ [.select info.db]) := by
  simp only [selectStep, if_pos h]
  rw [hr]

theorem selectStep_fail (info : ConnectionInfo) (reply : HandshakeCmd → Except RedisError Value)
    (issued : List HandshakeCmd) (h : info.db ≠ 0)
    (hr : reply (.select info.db) ≠ .ok .Okay) :
    selectStep info reply issued =
      (.error (.app .ResponseError "Redis server refused to switch database"),
       issued ++ [.select info.db]) := by
  simp only [selectStep, if_pos h]

theorem selectStep_snd (info : ConnectionInfo) (reply : HandshakeCmd → Except RedisError Value)
    (issued : List HandshakeCmd) :
    (selectStep info reply issued).2 = issued ∨
    (selectStep info reply issued).2 = issued ++ [.select info.db] := by
  by_cases h : info.db ≠ 0
  · right
    simp only [selectStep, if_pos h]
    split <;> rfl
  · left
    simp only [selectStep, if_neg h]

theorem selectStep_fst_ok_iff (info : ConnectionInfo)
    (reply : HandshakeCmd → Except RedisError Value) (issued : List HandshakeCmd) :
    (selectStep info reply issued).1 = .ok () ↔
      (info.db ≠ 0 → reply (.select info.db) = .ok .Okay) := by
  by_cases h : info.db = 0
  · rw [selectStep_skip info reply issued h]
    simp [h]
  · constructor
    · intro hfst _
      by_contra hr
      rw [selectStep_fail info reply issued h hr] at hfst
      simp at hfst
    · intro himp
      rw [selectStep_okay info reply issued h (himp h)]

theorem authenticate_nopass (info : ConnectionInfo)
    (reply : HandshakeCmd → Except RedisError Value) (h : info.passwd = none) :
    authenticate info reply = selectStep info reply [] := by
  simp [authenticate, h]

theorem authenticate_auth_okay (info : ConnectionInfo)
    (reply : HandshakeCmd → Except RedisError Value) (p : String)
    (hp : info.passwd = some p) (hr : reply (.auth p) = .ok .Okay) :
    authenticate info reply = selectStep info reply [.auth p] := by
  simp only [authenticate, hp]
  rw [hr]

theorem authenticate_auth_fail (info : ConnectionInfo)
    (reply : HandshakeCmd → Except RedisError Value) (p : String)
    (hp : info.passwd = some p) (hr : reply (.auth p) ≠ .ok .Okay) :
    authenticate info reply =
      (.error (.app .AuthenticationFailed "Password authentication failed"), [.auth p]) := by
  simp only [authenticate, hp]

theorem authenticate_ok_iff (info : ConnectionInfo)
    (reply : HandshakeCmd → Except RedisError Value) :
    (authenticate info reply).1 = .ok () ↔
      ((∀ p, info.passwd = some p → reply (.auth p) = .ok .Okay)
        ∧ (info.db ≠ 0 → reply (.select info.db) = .ok .Okay)) := by
  cases hp : info.passwd with
  | none =>
    rw [authenticate_nopass info reply hp]
    rw [selectStep_fst_ok_iff info reply []]
    constructor
    · intro h
      exact ⟨fun p hcontra => absurd hcontra (by simp), h⟩
    · intro h
      exact h.2
  | some p =>
    by_cases hr : reply (.auth p) = .ok .Okay
    · rw [authenticate_auth_okay info reply p hp hr]
      rw [selectStep_fst_ok_iff info reply [.auth p]]
      constructor
      · intro h
        refine ⟨?_, h⟩
        intro p' hp'
        have : p = p' := by injection hp'
        exact this ▸ hr
      · intro h
        exact h.2
    · rw [authenticate_auth_fail info reply p hp hr]
      constructor
      · intro h
        simp at h
      · intro h
        exact absurd (h.1 p rfl) hr

theorem connect_of_auth (info : ConnectionInfo)
    (reply : HandshakeCmd → Except RedisError Value) :
    connect info (.ok ()) reply =
      (match (authenticate info reply).1 with
       | .ok _ => .ok ⟨info.db⟩
       | .error e => .error e) := rfl

/-- C2: Handshake atomicity.  `connect` returns a connection iff the transport
opens and the handshake succeeds; with a password set, a non-`Okay` AUTH reply
fails the whole construction with `AuthenticationFailed`; with `db ≠ 0`, a
non-`Okay` SELECT reply fails it with `ResponseError`; with no password AUTH
is never issued, and with `db = 0` SELECT is never issued. -/
theorem handshake_atomicity (info : ConnectionInfo) (transport : Except RedisError Unit)
    (reply : HandshakeCmd → Except RedisError Value) :
    ((∃ c, connect info transport reply = .ok c) ↔
      (transport = .ok () ∧ (∀ p, info.passwd = some p → reply (.auth p) = .ok .Okay)
        ∧ (info.db ≠ 0 → reply (.select info.db) = .ok .Okay)))
    ∧ (∀ p, transport = .ok () → info.passwd = some p → reply (.auth p) ≠ .ok .Okay →
        connect info transport reply =
          .error (.app .AuthenticationFailed "Password authentication failed"))
    ∧ (transport = .ok () →
        (∀ p, info.passwd = some p → reply (.auth p) = .ok .Okay) →
        info.db ≠ 0 → reply (.select info.db) ≠ .ok .Okay →
        connect info transport reply =
          .error (.app .ResponseError "Redis server refused to switch database"))
    ∧ (info.passwd = none → ∀ p, HandshakeCmd.auth p ∉ (authenticate info reply).2)
    ∧ (info.db = 0 → ∀ d, HandshakeCmd.select d ∉ (authenticate info reply).2) := by
  refine ⟨?_, ?_, ?_, ?_, ?_⟩
  · cases transport with
    | error e =>
      constructor
      · intro ⟨c, hc⟩
        simp [connect] at hc
      · intro ⟨ht, _⟩
        simp at ht
    | ok u =>
      cases u
      rw [connect_of_auth info reply]
      cases ha : (authenticate info reply).1 with
      | ok u' =>
        cases u'
        constructor
        · intro _
          exact ⟨rfl, (authenticate_ok_iff info reply).mp ha⟩
        · intro _
          exact ⟨⟨info.db⟩, rfl⟩
      | error e =>
        constructor
        · intro ⟨c, hc⟩
          simp at hc
        · intro ⟨_, hrest⟩
          have := (authenticate_ok_iff info reply).mpr hrest
          rw [ha] at this
          simp at this
  · intro p ht hp hr
    subst ht
    have ha1 : (authenticate info reply).1 =
        .error (.app .AuthenticationFailed "Password authentication failed") := by
      rw [authenticate_auth_fail info reply p hp hr]
    rw [connect_of_auth info reply, ha1]
  · intro ht hall hdb hsel
    subst ht
    have ha1 : (authenticate info reply).1 =
        .error (.app .ResponseError "Redis server refused to switch database") := by
      cases hp : info.passwd with
      | none =>
        rw [authenticate_nopass info reply hp, selectStep_fail info reply [] hdb hsel]
      | some p =>
        rw [authenticate_auth_okay info reply p hp (hall p hp),
          selectStep_fail info reply [.auth p] hdb hsel]
    rw [connect_of_auth info reply, ha1]
  · intro hp p
    rw [authenticate_nopass info reply hp]
    rcases selectStep_snd info reply [] with h | h <;> rw [h] <;> simp
  · intro hdb d
    cases hp : info.passwd with
    | none =>
      rw [authenticate_nopass info reply hp, selectStep_skip info reply [] hdb]
      simp
    | some p =>
      by_cases hr : reply (.auth p) = .ok .Okay
      · rw [authenticate_auth_okay info reply p hp hr, selectStep_skip info reply _ hdb]
        simp
      · rw [authenticate_auth_fail info reply p hp hr]
        simp

/-- C2 witness: with a password and `db = 2` against a server replying `Okay`,
`connect` succeeds. -/
theorem handshake_atomicity_witness :
    ∃ c, connect ⟨some "pw", 2⟩ (.ok ()) replyOkay = .ok c :=
  (handshake_atomicity ⟨some "pw", 2⟩ (.ok ()) replyOkay).1.mpr
    ⟨rfl, fun p _ => rfl, fun _ => rfl⟩

/-- C1: FIFO pairing.  For submissions accepted by `start_send` in order with
expected counts `counts` (each at least 1) and an inbound stream of `Ok`
frames, the k-th delivery goes to the k-th submission's slot and carries
exactly frames `sum of the first k counts + 1` through `sum of the first k+1
counts`, in arrival order, as the `Ok` payload. -/
theorem fifo_pairing (counts : List Nat) (frames : List Value) (k : Nat)
    (hpos : ∀ c ∈ counts, 1 ≤ c) (hk : k < counts.length)
    (hlen : (counts.take (k + 1)).sum ≤ frames.length) :
    ((processFrames (pushAll ⟨[], none⟩ (mkMsgs (fun _ => true) 0 counts))
        (frames.map .ok)).2)[k]? =
      some (k, true, .ok ((frames.drop ((counts.take k).sum)).take (counts.getD k 0))) := by
  have hsub : ∀ n, ∀ c ∈ counts.take n, 1 ≤ c :=
    fun n c hc => hpos c (List.take_subset n counts hc)
  have h1 := needSum_eq_sum (counts.take (k + 1)) (hsub (k + 1))
  have h2 := needSum_eq_sum (counts.take k) (hsub k)
  have h3 : need (counts.getD k 0) 0 = counts.getD k 0 :=
    need_of_pos _ (hpos _ (getD_mem_of_lt counts k hk))
  have h := run_fifo (fun _ => true) counts frames k hk (by rw [h1]; exact hlen)
  rw [h2, h3] at h
  exact h

/-- C1 witness: counts [2, 1], three frames; the second submission receives
exactly the third frame. -/
theorem fifo_pairing_witness :
    ((processFrames (pushAll ⟨[], none⟩ (mkMsgs (fun _ => true) 0 [2, 1]))
        ([Value.Int 1, Value.Int 2, Value.Int 3].map .ok)).2)[1]? =
      some (1, true, .ok [Value.Int 3]) := by
  have h := fifo_pairing [2, 1] [Value.Int 1, Value.Int 2, Value.Int 3] 1
    (by decide) (by decide) (by decide)
  exact h

/-- C3: req_packed_commands writes the pipeline, reads `offset + count` frames
serially in order, discards the first `offset` and returns the remaining
`count` in order; any read error while consuming either part aborts with that
error, as does a write error. -/
theorem req_packed_commands_spec (writeResult : Except RedisError Unit)
    (resp : Nat → Except RedisError Value) (vs : Nat → Value) (offset count : Nat) :
    (writeResult = .ok () → (∀ i, i < offset + count → resp i = .ok (vs i)) →
      Connection.req_packed_commands writeResult resp offset count =
        .ok (okList vs offset count))
    ∧ (∀ e j, writeResult = .ok () → j < offset + count → resp j = .error e →
        (∀ i, i < j → resp i = .ok (vs i)) →
        Connection.req_packed_commands writeResult resp offset count = .error e)
    ∧ (∀ e, writeResult = .error e →
        Connection.req_packed_commands writeResult resp offset count = .error e) := by
  refine ⟨?_, ?_, ?_⟩
  · intro hw hok
    subst hw
    show (match readRange resp 0 offset with
          | Except.error e => Except.error e
          | Except.ok _ => readRange resp offset count) = _
    rw [readRange_ok resp vs offset 0 (fun i h1 h2 => hok i (by omega)),
      readRange_ok resp vs count offset (fun i h1 h2 => hok i (by omega))]
  · intro e j hw hj he hok
    subst hw
    show (match readRange resp 0 offset with
          | Except.error e => Except.error e
          | Except.ok _ => readRange resp offset count) = _
    by_cases hjo : j < offset
    · rw [readRange_err resp vs e offset 0 j (by omega) (by omega) he
        (fun i hi1 hi2 => hok i hi2)]
    · rw [readRange_ok resp vs offset 0 (fun i h1 h2 => hok i (by omega)),
        readRange_err resp vs e count offset j (by omega) (by omega) he
          (fun i hi1 hi2 => hok i hi2)]
  · intro e hw
    subst hw
    rfl

/-- C3 witness: offset 1, count 2 against an all-`Ok` decoder returns the
frames at positions 1 and 2. -/
theorem req_packed_commands_spec_witness :
    Connection.req_packed_commands (.ok ()) (fun i => .ok (Value.Int i)) 1 2 =
      .ok (okList (fun i => Value.Int i) 1 2) :=
  (req_packed_commands_spec (.ok ()) (fun i => .ok (Value.Int i))
    (fun i => Value.Int i) 1 2).1 rfl (fun i _ => rfl)

/-- C4: Stashed readiness error.  A sink error at readiness time is stashed in
the one-slot stash and readiness still reports success; the next submission
passed to start_send while the stash is full has the error taken, sent as
`Err` to its own slot, and its send fails with no `InFlight` record created. -/
theorem stashed_readiness_error (st : SinkState) (e : RedisError)
    (msg : PipelineMessage) (sinkOutcome : Option RedisError) :
    (poll_ready (.error e) st).2 = true
    ∧ (poll_ready (.error e) st).1.error = some e
    ∧ (poll_ready (.error e) st).1.in_flight = st.in_flight
    ∧ (start_send sinkOutcome (poll_ready (.error e) st).1 msg).2.1 = false
    ∧ (start_send sinkOutcome (poll_ready (.error e) st).1 msg).2.2 =
        some (msg.output, msg.alive, .error e)
    ∧ (start_send sinkOutcome (poll_ready (.error e) st).1 msg).1.in_flight = st.in_flight
    ∧ (start_send sinkOutcome (poll_ready (.error e) st).1 msg).1.error = none := by
  obtain ⟨fl, err⟩ := st
  exact ⟨rfl, rfl, rfl, rfl, rfl, rfl, rfl⟩

/-- C5: Completion rules on errors and the empty deque.  With an empty
in-flight deque any inbound item is dropped without effect; with a non-empty
deque an inbound `Err` pops the head and sends `Err` to its slot regardless of
the frames it had accumulated. -/
theorem completion_rules (st : SinkState) (r : Except RedisError Value)
    (e : RedisError) (entry : InFlight) (rest : List InFlight) :
    (st.in_flight = [] → send_result st r = (st, none))
    ∧ (st.in_flight = entry :: rest →
        send_result st (.error e) =
          ({ st with in_flight := rest }, some (entry.output, entry.alive, .error e))) := by
  obtain ⟨fl, err⟩ := st
  constructor
  · intro h
    have h' : fl = [] := h
    subst h'
    rfl
  · intro h
    have h' : fl = entry :: rest := h
    subst h'
    rfl

/-- C5 witness: a head record with two expected responses and an accumulated
buffer is popped and receives the inbound error immediately. -/
theorem completion_rules_witness :
    send_result ⟨[⟨0, true, 2, [Value.Okay]⟩], none⟩ (.error sampleErr) =
      (⟨[], none⟩, some (0, true, .error sampleErr)) := by
  have h := completion_rules ⟨[⟨0, true, 2, [Value.Okay]⟩], none⟩ (.error sampleErr)
    sampleErr ⟨0, true, 2, [Value.Okay]⟩ []
  exact h.2 rfl

/-- C6: Driver shutdown surfaces as `Err(None)` mapped to a broken-pipe I/O
error.  A slot still in flight when the inbound stream ends received no
delivery; its waiter observes `Err(None)` from `send_recv_multiple`, which
`req_packed_command` and `req_packed_commands` turn into a `RedisError` built
from `io::ErrorKind::BrokenPipe`. -/
theorem driver_shutdown_broken_pipe (st : SinkState)
    (inbound : List (Except RedisError Value)) (o : Nat)
    (hnodup : (st.in_flight.map InFlight.output).Nodup)
    (ho : o ∈ (processFrames st inbound).1.in_flight.map InFlight.output) :
    (∀ d ∈ (processFrames st inbound).2, d.1 ≠ o)
    ∧ Pipeline.send_recv_multiple true none = .error none
    ∧ MultiplexedConnection.req_packed_command (.error none) = .error (.io .brokenPipe)
    ∧ (∀ offset, MultiplexedConnection.req_packed_commands (.error none) offset =
        .error (.io .brokenPipe)) := by
  refine ⟨?_, rfl, rfl, fun _ => rfl⟩
  intro d hd hdo
  have hsplit := outputs_split inbound st
  rw [hsplit] at hnodup
  rcases List.nodup_append.mp hnodup with ⟨_, _, hdisj⟩
  exact hdisj (List.mem_map.mpr ⟨d, hd, hdo⟩) ho

/-- C6 witness: a slot pending when the stream ends leads to the broken-pipe
error through the mapping. -/
theorem driver_shutdown_broken_pipe_witness :
    MultiplexedConnection.req_packed_command (.error none) = .error (.io .brokenPipe) := by
  have h := driver_shutdown_broken_pipe ⟨[⟨0, true, 1, []⟩], none⟩ [] 0
    (by simp) (by simp [processFrames])
  exact h.2.2.1

/-- C7: Cancellation does not misalign frames.  Even with dropped reply
receivers (the `alive` assignment marks submission `j` as cancelled), the
driver still accumulates the cancelled submission's frames, pops its record in
FIFO position ignoring the failed oneshot send, and every submission's
delivery still carries exactly its own frames. -/
theorem cancellation_preserves_alignment (alive : Nat → Bool) (j : Nat)
    (counts : List Nat) (frames : List Value) (k : Nat)
    (hdrop : alive j = false)
    (hpos : ∀ c ∈ counts, 1 ≤ c) (hk : k < counts.length)
    (hlen : (counts.take (k + 1)).sum ≤ frames.length) :
    ((processFrames (pushAll ⟨[], none⟩ (mkMsgs alive 0 counts)) (frames.map .ok)).2)[k]? =
      some (k, alive k,
        .ok ((frames.drop ((counts.take k).sum)).take (counts.getD k 0))) := by
  have hsub : ∀ n, ∀ c ∈ counts.take n, 1 ≤ c :=
    fun n c hc => hpos c (List.take_subset n counts hc)
  have h1 := needSum_eq_sum (counts.take (k + 1)) (hsub (k + 1))
  have h2 := needSum_eq_sum (counts.take k) (hsub k)
  have h3 : need (counts.getD k 0) 0 = counts.getD k 0 :=
    need_of_pos _ (hpos _ (getD_mem_of_lt counts k hk))
  have h := run_fifo alive counts frames k hk (by rw [h1]; exact hlen)
  rw [h2, h3] at h
  exact h

/-- C7 witness: submission 0's receiver is dropped; submission 1 still
receives exactly its own frame. -/
theorem cancellation_preserves_alignment_witness :
    ((processFrames (pushAll ⟨[], none⟩ (mkMsgs (fun i => i != 0) 0 [1, 1]))
        ([Value.Okay, Value.Nil].map .ok)).2)[1]? =
      some (1, true, .ok [Value.Nil]) := by
  have h := cancellation_preserves_alignment (fun i => i != 0) 0 [1, 1]
    [Value.Okay, Value.Nil] 1 rfl (by decide) (by decide) (by decide)
  exact h

/-- C8: Reconnect idempotence.  Any sequence of reconnect calls holding the
same observed guard installs at most one new connection future: the CAS winner
alone spawns, every loser discards, and the installed future is the winner's
candidate (what subsequent command calls load and await). -/
theorem reconnect_idempotence (g : Nat) (cands : List Nat) (st : ManagerState)
    (hst : st.current = g) (hfresh : ∀ c ∈ cands, c ≠ g) :
    ((runReconnects st g cands).2.count true ≤ 1)
    ∧ (∀ c0 cs, cands = c0 :: cs →
        (runReconnects st g cands).1.current = c0
        ∧ (runReconnects st g cands).2 = true :: cs.map (fun _ => false)) := by
  have hrun : ∀ c0 cs, cands = c0 :: cs →
      runReconnects st g cands = (⟨c0⟩, true :: cs.map fun _ => false) := by
    intro c0 cs hc
    subst hc
    have h1 : reconnect st g c0 = (⟨c0⟩, true) := by
      simp [reconnect, compare_and_swap, hst]
    have h2 := runReconnects_stuck cs ⟨c0⟩ g (by
      have := hfresh c0 (by simp)
      simpa using this)
    rw [runReconnects]
    show ((runReconnects (reconnect st g c0).1 g cs).1,
      (reconnect st g c0).2 :: (runReconnects (reconnect st g c0).1 g cs).2) = _
    rw [h1]
    simp only
    rw [h2]
  constructor
  · cases hc : cands with
    | nil => simp [runReconnects]
    | cons c0 cs =>
      have hr2 := hrun c0 cs hc
      rw [hc] at hr2
      rw [hr2]
      have hz : (List.replicate cs.length false).count true = 0 :=
        List.count_eq_zero.mpr (by simp [List.mem_replicate])
      simp [List.count_cons, hz]
  · intro c0 cs hc
    rw [hrun c0 cs hc]
    exact ⟨rfl, rfl⟩

/-- C8 witness: two racing reconnects over guard 0; the first spawns and
installs, the second discards. -/
theorem reconnect_idempotence_witness :
    (runReconnects ⟨0⟩ 0 [1, 2]).1.current = 1
    ∧ (runReconnects ⟨0⟩ 0 [1, 2]).2 = true :: [2].map (fun _ => false) := by
  have h := reconnect_idempotence 0 [1, 2] ⟨0⟩ rfl (by decide)
  exact h.2 1 [2] rfl

/-- C9: Every `Ok` fulfillment carries exactly the registered expected count
of frames (counts at least 1, per the invariant on fresh records); hence
`pop().unwrap()` in `Pipeline::send` (count 1) cannot see an empty vector and
`drain(..offset)` in `MultiplexedConnection::req_packed_commands` (count
`offset + n`) stays within bounds on the `Ok` path. -/
theorem ok_payload_has_count (cnt : Nat → Nat) (st : SinkState)
    (fs : List (Except RedisError Value))
    (hinv : ∀ r ∈ st.in_flight,
      r.buffer.length < r.response_count ∧ cnt r.output = r.response_count) :
    ∀ d ∈ (processFrames st fs).2, ∀ v, d.2.2 = .ok v →
      v.length = cnt d.1
      ∧ (cnt d.1 = 1 → v.getLast?.isSome = true)
      ∧ (∀ offset n, cnt d.1 = offset + n → offset ≤ v.length) := by
  intro d hd v hv
  have hlen := processFrames_len_inv cnt fs st hinv d hd v hv
  refine ⟨hlen, ?_, ?_⟩
  · intro h1
    rw [h1] at hlen
    match v with
    | [x] => rfl
    | [] => simp at hlen
    | x :: y :: rest => simp [List.length_cons] at hlen
  · intro offset n hcnt
    omega

/-- C9 witness: a count-1 submission is fulfilled with a one-element payload
whose `pop()` is well-defined. -/
theorem ok_payload_has_count_witness :
    ([Value.Okay].length = 1) ∧ [Value.Okay].getLast?.isSome = true := by
  have h := ok_payload_has_count (fun _ => 1) ⟨[⟨0, true, 1, []⟩], none⟩
    [.ok Value.Okay]
    (by
      intro r hr
      rw [List.mem_singleton] at hr
      subst hr
      exact ⟨Nat.zero_lt_one, rfl⟩)
    (0, true, .ok [Value.Okay]) (List.mem_singleton.mpr rfl) [Value.Okay] rfl
  exact ⟨h.1, h.2.1 rfl⟩

/-- C10: A submission accepted with `response_count = 0` is not completed
immediately; the next inbound `Ok` frame is still pushed onto its buffer and
only then does the completion check fire, so it completes with one frame that
belonged to the following submission, and every later submission's frames are
shifted by one position. -/
theorem zero_count_shifts_alignment (alive : Nat → Bool) (cs : List Nat) (f0 : Value)
    (fs : List Value) (k : Nat)
    (hpos : ∀ c ∈ cs, 1 ≤ c) (hk : k < cs.length)
    (hlen : 1 + (cs.take (k + 1)).sum ≤ (f0 :: fs).length) :
    (((processFrames (pushAll ⟨[], none⟩ (mkMsgs alive 0 (0 :: cs)))
        ((f0 :: fs).map .ok)).2)[0]? = some (0, alive 0, .ok [f0]))
    ∧ (((processFrames (pushAll ⟨[], none⟩ (mkMsgs alive 0 (0 :: cs)))
        ((f0 :: fs).map .ok)).2)[k + 1]? =
        some (k + 1, alive (k + 1),
          .ok (((f0 :: fs).drop (1 + (cs.take k).sum)).take (cs.getD k 0)))) := by
  have hsub : ∀ n, ∀ c ∈ cs.take n, 1 ≤ c :=
    fun n c hc => hpos c (List.take_subset n cs hc)
  constructor
  · have e1 : needSum ((0 :: cs).take 1) = 1 := by
      simp [needSum, need]
    have h := run_fifo alive (0 :: cs) (f0 :: fs) 0 (by simp)
      (by rw [e1]; simp)
    simpa [needSum, need] using h
  · have h1 : needSum ((0 :: cs).take (k + 1 + 1)) = 1 + (cs.take (k + 1)).sum := by
      rw [List.take_succ_cons, needSum, needSum_eq_sum (cs.take (k + 1)) (hsub (k + 1))]
      simp [need]
    have h := run_fifo alive (0 :: cs) (f0 :: fs) (k + 1) (by simpa using hk) (by omega)
    have h2 : needSum ((0 :: cs).take (k + 1)) = 1 + (cs.take k).sum := by
      rw [List.take_succ_cons, needSum, needSum_eq_sum (cs.take k) (hsub k)]
      simp [need]
    have h3 : need ((0 :: cs).getD (k + 1) 0) 0 = cs.getD k 0 := by
      rw [show (0 :: cs).getD (k + 1) 0 = cs.getD k 0 by simp [List.getD]]
      exact need_of_pos _ (hpos _ (getD_mem_of_lt cs k hk))
    rw [h2, h3] at h
    exact h

/-- C10 witness: counts [0, 1] with frames [Okay, Nil]: the zero-count
submission absorbs the first frame and the next submission receives the
second frame instead of the first. -/
theorem zero_count_shifts_alignment_witness :
    (((processFrames (pushAll ⟨[], none⟩ (mkMsgs (fun _ => true) 0 (0 :: [1])))
        (([Value.Okay, Value.Nil]).map .ok)).2)[0]? = some (0, true, .ok [Value.Okay]))
    ∧ (((processFrames (pushAll ⟨[], none⟩ (mkMsgs (fun _ => true) 0 (0 :: [1])))
        (([Value.Okay, Value.Nil]).map .ok)).2)[1]? =
        some (1, true, .ok [Value.Nil])) := by
  have h := zero_count_shifts_alignment (fun _ => true) [1] Value.Okay [Value.Nil] 0
    (by decide) (by decide) (by decide)
  exact ⟨h.1, h.2⟩
